import Mathlib

/-!
Verification development for the depstubber extraction pipeline.

The definitions below are a shallow embedding of the Go source:
  * the identifier validator (`exportedId`, from the regex in the reflection file),
  * the comment formatter (`FormatDepstubberComment` in its two variants),
  * the usage-analysis engine (`autoDetect`, `loadPackage`, `CombineErrors`),
  * the reflection harness cascade (`reflectMode`, `runInDir`), modelled as a
    state machine over oracles for the filesystem and subprocess outcomes.

Machine strings are Lean `String`s; Go's byte-wise operations agree with the
code-point operations used here on the ASCII inputs that appear in identifiers
and import paths.
-/

namespace Depstubber

/-! ## A small regular-expression engine (Brzozowski derivatives)

Go's `regexp.MatchString` reports whether the string *contains* a match of the
pattern (it is not anchored).  We embed the concrete pattern used by the source,

  `(\p{Lu}(\pL|\pN)*)(\.\p{Lu}(\pL|\pN))*`

and both the unanchored "contains a match" semantics used by the code and the
anchored "whole string matches" semantics.  The Unicode classes `\p{Lu}`, `\pL`,
`\pN` are modelled by their ASCII restrictions (`Char.isUpper`, `Char.isAlpha`,
`Char.isDigit`), which agree with Go on every ASCII identifier. -/

inductive RE where
  | emp : RE
  | eps : RE
  | cls : (Char → Bool) → RE
  | cat : RE → RE → RE
  | alt : RE → RE → RE
  | star : RE → RE

def RE.nullable : RE → Bool
  | .emp => false
  | .eps => true
  | .cls _ => false
  | .cat a b => a.nullable && b.nullable
  | .alt a b => a.nullable || b.nullable
  | .star _ => true

def RE.deriv : RE → Char → RE
  | .emp, _ => .emp
  | .eps, _ => .emp
  | .cls p, c => if p c then .eps else .emp
  | .cat a b, c =>
      if a.nullable then .alt (.cat (a.deriv c) b) (b.deriv c)
      else .cat (a.deriv c) b
  | .alt a b, c => .alt (a.deriv c) (b.deriv c)
  | .star a, c => .cat (a.deriv c) (.star a)

/-- Whether the whole character list matches the pattern (anchored match). -/
def RE.fullMatch (r : RE) : List Char → Bool
  | [] => r.nullable
  | c :: cs => (r.deriv c).fullMatch cs

/-- Whether some (possibly empty) leading segment of the list matches. -/
def RE.matchesSomeLead (r : RE) : List Char → Bool
  | [] => r.nullable
  | c :: cs => r.nullable || (r.deriv c).matchesSomeLead cs

/-- Whether the list contains a match anywhere: the semantics of Go's
unanchored `Regexp.MatchString`. -/
def RE.containsMatch (r : RE) : List Char → Bool
  | [] => r.nullable
  | c :: cs => r.matchesSomeLead (c :: cs) || r.containsMatch cs

/-- Class `\p{Lu}` restricted to ASCII. -/
def charLu (c : Char) : Bool := c.isUpper

/-- Class `\pL|\pN` restricted to ASCII. -/
def charLN (c : Char) : Bool := c.isAlpha || c.isDigit

/-- The pattern literal `(\p{Lu}(\pL|\pN)*)(\.\p{Lu}(\pL|\pN))*` compiled in
the source as `exportedIdRegex`.  Note that the qualifier group in the source
requires exactly one `\pL|\pN` character after the dot-led upper-case letter. -/
def exportedIdRegex : RE :=
  .cat (.cat (.cls charLu) (.star (.cls charLN)))
       (.star (.cat (.cls (fun c => c = '.'))
                    (.cat (.cls charLu) (.cls charLN))))

/-- Function `exportedId` from the source: `exportedIdRegex.MatchString(id)`, i.e. the
unanchored containment semantics of Go's `MatchString`. -/
def exportedId (id : String) : Bool :=
  exportedIdRegex.containsMatch id.data

/-- Modelled from the spec: the export-identifier grammar of §4.1 — an
upper-case-letter-led run of letters/digits, optionally followed by one or
more `.UpperCaseRun` qualifiers — required to match the *entire* name
(anchored).  This is the grammar the claim states the validator decides. -/
def exportGrammarSpec (id : String) : Bool :=
  (RE.cat (.cat (.cls charLu) (.star (.cls charLN)))
          (.star (.cat (.cls (fun c => c = '.'))
                       (.cat (.cls charLu) (.star (.cls charLN)))))).fullMatch id.data

/-! ## String helpers from the source -/

/-- Predicate `token.IsExported` as used by `go/types`' `obj.Exported()` and by
`removeUnexported`: the first rune of the name is an upper-case letter
(ASCII restriction of `unicode.IsUpper`; the empty name is not exported). -/
def IsExported (s : String) : Bool :=
  match s.data with
  | [] => false
  | c :: _ => c.isUpper

/-- Function `IsStandardImportPath` from the source: the first slash-separated element
of the path contains no dot. -/
def IsStandardImportPath (path : String) : Bool :=
  let elem := path.data.takeWhile (fun c => c ≠ '/')
  !(elem.contains '.')

/-- Model of `strings.HasPrefix(s, pre)`. -/
def hasPrefixStr (s pre : String) : Bool := pre.data.isPrefixOf s.data

/-- The seen-set loop inside `DeduplicateStrings`: keep the first occurrence
of each value, in input order. -/
def dedupKeepFirst (seen : List String) : List String → List String
  | [] => []
  | x :: xs =>
      if x ∈ seen then dedupKeepFirst seen xs
      else x :: dedupKeepFirst (x :: seen) xs

/-- Function `DeduplicateStrings` from the source: returns the input unchanged when it
has at most one element, otherwise removes duplicates keeping first
occurrences. -/
def DeduplicateStrings (slice : List String) : List String :=
  if slice.length ≤ 1 then slice else dedupKeepFirst [] slice

/-- Function `removeBlankIdentifier` from the source. -/
def removeBlankIdentifier (slice : List String) : List String :=
  slice.filter (fun val => val ≠ "_")

/-- Function `removeUnexported` from the source. -/
def removeUnexported (slice : List String) : List String :=
  slice.filter (fun val => IsExported val)

/-- Model of `sort.Strings`: lexicographic sort.  Go's byte-wise comparison and Lean's
code-point comparison agree (UTF-8 order coincides with code-point order);
any sorting algorithm produces the same result on a totally ordered type, so
insertion sort is a faithful model. -/
def sortStrings (l : List String) : List String :=
  l.insertionSort (· ≤ ·)

/-- Model of `strings.Join(elems, ",")` from the source. -/
def joinComma : List String → String
  | [] => ""
  | [x] => x
  | x :: y :: xs => x ++ "," ++ joinComma (y :: xs)

/-- Model of `strings.TrimSpace`: drop leading and trailing whitespace (ASCII model of
Go's `unicode.IsSpace`). -/
def trimSpace (s : String) : String :=
  ⟨((s.data.dropWhile Char.isWhitespace).reverse.dropWhile Char.isWhitespace).reverse⟩

/-! ## The comment formatter (both variants in the source) -/

/-- The first (type-name) field: joined deduplicated sorted names, or the
explicit two-character placeholder `""` when the list is empty.  Common to
both formatter variants. -/
def formatFirstField (typeNames : List String) : String :=
  if typeNames.length > 0 then
    joinComma (sortStrings (DeduplicateStrings typeNames))
  else "\x22\x22"

/-- The second (value-name) field of the variant in `auto-detect.go`: joined
deduplicated sorted names, or the empty string when the list is empty. -/
def formatSecondField (funcAndVarNames : List String) : String :=
  if funcAndVarNames.length > 0 then
    joinComma (sortStrings (DeduplicateStrings funcAndVarNames))
  else ""

/-- Function `FormatDepstubberComment` from `auto-detect.go`: renders the three fields
with `fmt.Sprintf("//go:generate depstubber -vendor %s %s %s", ...)` and trims
surrounding whitespace, so an empty value field disappears entirely. -/
def FormatDepstubberComment (path : String) (typeNames funcAndVarNames : List String) :
    String :=
  trimSpace ("//go:generate depstubber -vendor " ++ path ++ " " ++
    formatFirstField typeNames ++ " " ++ formatSecondField funcAndVarNames)

/-- The second (value-name) field of the older formatter variant: an empty
list renders the explicit `""` placeholder. -/
def formatSecondFieldPlaceholder (funcAndVarNames : List String) : String :=
  if funcAndVarNames.length > 0 then
    joinComma (sortStrings (DeduplicateStrings funcAndVarNames))
  else "\x22\x22"

/-- The older `FormatDepstubberComment` variant: same rendering, explicit `""`
placeholder for an empty value list, and no trimming. -/
def FormatDepstubberCommentPlaceholder (path : String)
    (typeNames funcAndVarNames : List String) : String :=
  "//go:generate depstubber -vendor " ++ path ++ " " ++
    formatFirstField typeNames ++ " " ++ formatSecondFieldPlaceholder funcAndVarNames

/-! ## The usage-analysis engine (`autoDetect` in `auto-detect.go`)

The walk over `pk.TypesInfo.Uses` is embedded as a fold over a list of
resolved identifier uses.  Each use carries the fields of the `types.Object`
that the loop inspects:

  * `pkg`: `obj.Pkg().Path()` — `none` models a nil `obj.Pkg()`;
  * `name`: `obj.Name()`; `obj.Exported()` is `IsExported name`;
  * `kind`: which `types.Object` variant the type switch sees, with the extra
    data each branch reads:
      - a `TypeName`'s `obj.Type()`, when it is a `*types.Named`, contributes
        the declaring package path and name of `Named.Obj()` (for an alias
        these can differ from the use's own package and name);
      - a `Var`'s `IsField()` flag;
      - a `Func`'s receiver, when it is a method: the receiver variable's
        package path and name (`sig.Recv().Pkg().Path()`, `sig.Recv().Name()`).

`vcs.RepoRootForImportPath` is an oracle `String → Option String` (`none`
models a lookup error). -/

inductive ObjKind where
  | typeName (named : Option (String × String))
  | constObj
  | varObj (isField : Bool)
  | funcObj (recv : Option (String × String))
deriving DecidableEq

structure UseObj where
  pkg : Option String
  name : String
  kind : ObjKind
deriving DecidableEq

/-- The same-project check of the source, applied to a use's package path `p`
that has already survived the earlier filters: module roots are compared when
both resolve; otherwise the slash-delimited path-overlap test decides. -/
def sameProjectCheck (entryPath : String) (repoRoot : String → Option String)
    (p : String) : Bool :=
  let pathsOverlap := hasPrefixStr p (entryPath ++ "/") || hasPrefixStr entryPath (p ++ "/")
  match repoRoot entryPath with
  | some rootStart =>
      match repoRoot p with
      | some rootObj => if rootStart = rootObj then true else pathsOverlap
      | none => pathsOverlap
  | none => pathsOverlap

/-- The outcome of one iteration of the walk for a single use. -/
inductive UseAction where
  | skip
  | invariantPanicAction
  | recordType (pkgPath name : String)
  | recordValue (pkgPath name : String)
deriving DecidableEq

/-- One iteration of the `for _, obj := range pk.TypesInfo.Uses` loop of
`auto-detect.go`, as a decision function.  The order of the tests mirrors the
source: nil/empty package, standard library, same path, the unexported panic,
the same-project filter, then the classification switch.  The `TypeName`
branch with a non-`Named` type hits the `fmt.Printf("ignoring type ...")`
branch, which records nothing (modelled as `skip`). -/
def classifyUse (entryPath : String) (repoRoot : String → Option String)
    (obj : UseObj) : UseAction :=
  match obj.pkg with
  | none => .skip
  | some p =>
    if p = "" then .skip
    else if IsStandardImportPath p then .skip
    else if p = entryPath then .skip
    else if !(IsExported obj.name) then .invariantPanicAction
    else if sameProjectCheck entryPath repoRoot p then .skip
    else
      match obj.kind with
      | .typeName named =>
          match named with
          | some (npkg, nname) => .recordType npkg nname
          | none => .skip
      | .constObj => .recordValue p obj.name
      | .varObj isField => if isField then .skip else .recordValue p obj.name
      | .funcObj recv =>
          match recv with
          | some (rpkg, rname) => .recordValue rpkg rname
          | none => .recordValue p obj.name

/-- The two accumulating maps `pathToTypeNames` and `pathToFuncAndVarNames`,
represented extensionally (a missing key holds `[]`). -/
structure DetectState where
  typeNames : String → List String
  valueNames : String → List String

def emptyDetectState : DetectState := ⟨fun _ => [], fun _ => []⟩

def appendAt (f : String → List String) (p n : String) : String → List String :=
  fun q => if q = p then f q ++ [n] else f q

/-- Apply one classified action to the state; `none` models the panic. -/
def applyAction (st : DetectState) : UseAction → Option DetectState
  | .skip => some st
  | .invariantPanicAction => none
  | .recordType p n => some { st with typeNames := appendAt st.typeNames p n }
  | .recordValue p n => some { st with valueNames := appendAt st.valueNames p n }

/-- The whole walk; `none` models a panic aborting the walk. -/
def walkUses (entryPath : String) (repoRoot : String → Option String) :
    List UseObj → DetectState → Option DetectState
  | [], st => some st
  | u :: us, st =>
      match applyAction st (classifyUse entryPath repoRoot u) with
      | none => none
      | some st' => walkUses entryPath repoRoot us st'

/-- The finalize pass applied to each map entry: deduplicate, strip the blank
identifier, drop unexported names, sort. -/
def finalizeNames (l : List String) : List String :=
  sortStrings (removeUnexported (removeBlankIdentifier (DeduplicateStrings l)))

def finalizeState (st : DetectState) : DetectState :=
  ⟨fun p => finalizeNames (st.typeNames p), fun p => finalizeNames (st.valueNames p)⟩

/-! ### `CombineErrors`, `loadPackage` and the full `autoDetect`

Errors are their message strings; a Go `error` value that may be nil is an
`Option String`.  The result of `packages.Load` is an oracle: either a load
error, or the loaded entry package (`pkgs[0]`) together with the list of
diagnostics that `packages.Visit` collects over the whole tree, in visit
order. -/

def allNilErrors (errs : List (Option String)) : Bool :=
  errs.all (fun e => e.isNone)

/-- Function `CombineErrors`: nil when the list is empty or all nil, otherwise a
`CombinedErrors` value carrying every error. -/
def CombineErrors (errs : List (Option String)) : Option (List (Option String)) :=
  if errs.length = 0 || allNilErrors errs then none else some errs

/-- Sequential concatenation: the `bytes.Buffer` accumulation loop. -/
def concatAll : List String → String
  | [] => ""
  | x :: xs => x ++ concatAll xs

/-- Method `CombinedErrors.Error()`: the header followed by one `"\n - "`-prefixed
line per non-nil error, skipping nil entries. -/
def combinedErrorsMessage (errs : List (Option String)) : String :=
  "The following errors occurred:" ++
    concatAll (errs.map (fun e =>
      match e with
      | some m => "\n - " ++ m
      | none => ""))

/-- How Go's `%s` renders the (possibly nil) result of `CombineErrors`. -/
def renderCombined (ce : Option (List (Option String))) : String :=
  match ce with
  | some errs => combinedErrorsMessage errs
  | none => "%!s(<nil>)"

/-- The data `loadPackage` extracts from a successful `packages.Load`:
the collected diagnostics and the entry package (`pkgs[0]`): its path
(`pk.Types.Path()`) and its resolved identifier uses (`pk.TypesInfo.Uses`).
The model assumes `pkgs` is non-empty, as every caller in the source does. -/
structure Loaded where
  diags : List String
  entryPath : String
  uses : List UseObj

/-- Function `loadPackage` from `auto-detect.go`. -/
def loadPackage (loadResult : Except String Loaded) : Except String Loaded :=
  match loadResult with
  | .error e => .error ("error while running packages.Load: " ++ e)
  | .ok l =>
      let errs : List (Option String) := l.diags.map some
      if errs.length > 0 then
        .error ("error while packages.Load: " ++ renderCombined (CombineErrors errs))
      else .ok l

/-- Function `autoDetect` from `auto-detect.go` (the two-index variant).  The outer
`Option` models the panic on the internal-invariant branch: `none` is a panic,
`some (.error e)` a returned error, `some (.ok st)` the two finalized maps. -/
def autoDetect (repoRoot : String → Option String)
    (loadResult : Except String Loaded) : Option (Except String DetectState) :=
  match loadPackage loadResult with
  | .error e => some (.error ("error while loading package: " ++ e))
  | .ok l =>
      match walkUses l.entryPath repoRoot l.uses emptyDetectState with
      | none => none
      | some st => some (.ok (finalizeState st))

/-! ## The reflection harness (`reflectMode` / `runInDir`)

The filesystem and subprocess outcomes are oracles in an environment record;
the model returns the function's result together with the trace of the
externally visible sandbox events.  The outer `Option` distinguishes a normal
return (`some`) from a process abort via `log.Fatalf` / `os.Exit` (`none`),
on which Go does *not* run deferred cleanups. -/

/-- The three sandbox locations of the fallback cascade. -/
inductive Loc where
  | cwd     -- the caller's current working directory
  | pkgDir  -- the target package's own source directory
  | tmp     -- the generic OS temporary directory (`ioutil.TempDir("")`)
deriving DecidableEq

inductive Event where
  | attemptStart (loc : Loc)    -- runInDir entered for this location
  | createDir (loc : Loc)       -- ioutil.TempDir succeeded: sandbox dir exists
  | copyGoMod (loc : Loc)       -- go.mod copied into the sandbox
  | buildRun (loc : Loc)        -- `go build` invoked in the sandbox
  | execRun (loc : Loc)         -- the probe binary executed
  | removeDir (loc : Loc)       -- deferred os.RemoveAll ran on the sandbox dir
deriving DecidableEq

/-- Per-attempt oracle: the outcomes of each fallible step of `runInDir`.
`getwdOk = false` and `copyOk = false` model `log.Fatalf` aborts; `modRoot`
is `findModuleRoot(wd)` (`none` models the empty result, i.e. no enclosing
`go.mod`). -/
structure RunEnv where
  tmpDirResult : Except String Unit   -- ioutil.TempDir
  writeFileResult : Except String Unit -- ioutil.WriteFile for prog.go
  getwdOk : Bool                       -- os.Getwd inside the go.mod block
  modRoot : Option String              -- findModuleRoot(wd)
  copyOk : Bool                        -- MustCopyFile of go.mod
  buildResult : Except String Unit     -- `go build` exit status
  runDecodeResult : Except String Nat  -- run the binary and gob-decode: a PackedPkg

/-- The body of `runInDir` after the sandbox directory exists (everything the
`defer os.RemoveAll` brackets).  Returns `none` on a `log.Fatalf` abort. -/
def runInDirBody (loc : Loc) (e : RunEnv) : Option (Except String Nat) × List Event :=
  match e.writeFileResult with
  | .error err => (some (.error err), [])
  | .ok _ =>
    if !e.getwdOk then (none, [])
    else
      let after : Option (Except String Nat) × List Event :=
        match e.buildResult with
        | .error err => (some (.error err), [.buildRun loc])
        | .ok _ =>
            match e.runDecodeResult with
            | .error err => (some (.error err), [.buildRun loc, .execRun loc])
            | .ok p => (some (.ok p), [.buildRun loc, .execRun loc])
      match e.modRoot with
      | some _ =>
          if !e.copyOk then (none, [])
          else (after.1, .copyGoMod loc :: after.2)
      | none => after

/-- Function `runInDir` from the source: create the sandbox directory, write the probe
source, copy the enclosing `go.mod` when a module root exists, build, run and
decode; the deferred `os.RemoveAll` removes the directory on every normal
return after creation. -/
def runInDir (loc : Loc) (e : RunEnv) : Option (Except String Nat) × List Event :=
  match e.tmpDirResult with
  | .error err => (some (.error err), [.attemptStart loc])
  | .ok _ =>
      match runInDirBody loc e with
      | (none, evs) => (none, .attemptStart loc :: .createDir loc :: evs)
      | (some r, evs) =>
          (some r, .attemptStart loc :: .createDir loc :: (evs ++ [.removeDir loc]))

/-- Process-wide inputs of `reflectMode`: flag values, the `writeProgram`
template outcome, `os.Getwd` at the top of the cascade, the `build.Import`
lookup of the target package's directory, and one `RunEnv` per location. -/
structure ReflectEnv where
  execOnly : Option (Except String Nat)  -- -exec_only: run that binary directly
  progOnly : Bool                        -- -prog_only: print the program and os.Exit(0)
  writeProgramResult : Except String Unit -- template execution
  getwdOk : Bool                          -- os.Getwd before the cascade
  importDirFound : Bool                   -- build.Import(importPath, wd, FindOnly)
  envCwd : RunEnv
  envPkgDir : RunEnv
  envTmp : RunEnv

/-- The location-fallback cascade at the end of `reflectMode`: current working
directory, then (when `build.Import` resolves) the package's own directory,
then the OS temp directory; the first success returns, intermediate failures
are dropped, and the last attempt's result is returned as-is. -/
def reflectCascade (env : ReflectEnv) : Option (Except String Nat) × List Event :=
  match runInDir .cwd env.envCwd with
  | (none, evs) => (none, evs)
  | (some (.ok p), evs) => (some (.ok p), evs)
  | (some (.error _), evsA) =>
      if env.importDirFound then
        match runInDir .pkgDir env.envPkgDir with
        | (none, evs) => (none, evsA ++ evs)
        | (some (.ok p), evs) => (some (.ok p), evsA ++ evs)
        | (some (.error _), evsB) =>
            let (rC, evsC) := runInDir .tmp env.envTmp
            (rC, evsA ++ evsB ++ evsC)
      else
        let (rC, evsC) := runInDir .tmp env.envTmp
        (rC, evsA ++ evsC)

/-- Function `reflectMode` from the source: validate every requested type name, then
every requested value name, against `exportedId`, rejecting on the first
failure with an error naming it; then the `-exec_only` fast path, program
synthesis, the `-prog_only` exit, and the three-location cascade. -/
def reflectMode (types values : List String) (env : ReflectEnv) :
    Option (Except String Nat) × List Event :=
  match types.find? (fun t => !exportedId t) with
  | some t => (some (.error (t ++ " is not a valid exported name.")), [])
  | none =>
    match values.find? (fun v => !exportedId v) with
    | some v => (some (.error (v ++ " is not a valid exported name.")), [])
    | none =>
      match env.execOnly with
      | some r => (some r, [])
      | none =>
        match env.writeProgramResult with
        | .error err => (some (.error err), [])
        | .ok _ =>
          if env.progOnly then (none, [])
          else if !env.getwdOk then (none, [])
          else reflectCascade env

/-! ## Helper lemmas about the list pipeline -/

theorem mem_dedupKeepFirst {x : String} :
    ∀ (l seen : List String), x ∈ dedupKeepFirst seen l ↔ x ∈ l ∧ x ∉ seen := by
  intro l
  induction l with
  | nil => intro seen; simp [dedupKeepFirst]
  | cons a t ih =>
    intro seen
    by_cases ha : a ∈ seen
    · simp only [dedupKeepFirst, if_pos ha, ih]
      constructor
      · rintro ⟨hx, hns⟩
        exact ⟨List.mem_cons_of_mem _ hx, hns⟩
      · rintro ⟨hx, hns⟩
        rcases List.mem_cons.mp hx with rfl | hx
        · exact absurd ha hns
        · exact ⟨hx, hns⟩
    · simp only [dedupKeepFirst, if_neg ha]
      constructor
      · intro h
        rcases List.mem_cons.mp h with rfl | h
        · exact ⟨List.mem_cons_self _ _, ha⟩
        · obtain ⟨hx, hns⟩ := (ih _).mp h
          exact ⟨List.mem_cons_of_mem _ hx,
            fun hc => hns (List.mem_cons_of_mem _ hc)⟩
      · rintro ⟨hx, hns⟩
        rcases List.mem_cons.mp hx with rfl | hx
        · exact List.mem_cons_self _ _
        · by_cases hxa : x = a
          · subst hxa; exact List.mem_cons_self _ _
          · refine List.mem_cons_of_mem _ ((ih _).mpr ⟨hx, ?_⟩)
            intro hc
            rcases List.mem_cons.mp hc with h1 | h1
            · exact hxa h1
            · exact hns h1

theorem nodup_dedupKeepFirst : ∀ (l seen : List String), (dedupKeepFirst seen l).Nodup := by
  intro l
  induction l with
  | nil => intro seen; simp [dedupKeepFirst]
  | cons a t ih =>
    intro seen
    by_cases ha : a ∈ seen
    · simpa only [dedupKeepFirst, if_pos ha] using ih seen
    · simp only [dedupKeepFirst, if_neg ha]
      refine List.nodup_cons.mpr ⟨?_, ih _⟩
      intro hc
      exact (mem_dedupKeepFirst _ _).mp hc |>.2 (List.mem_cons_self _ _)

theorem mem_DeduplicateStrings {x : String} {l : List String} :
    x ∈ DeduplicateStrings l ↔ x ∈ l := by
  unfold DeduplicateStrings
  split
  · exact Iff.rfl
  · rw [mem_dedupKeepFirst]
    simp

theorem nodup_DeduplicateStrings (l : List String) : (DeduplicateStrings l).Nodup := by
  unfold DeduplicateStrings
  split
  · match l with
    | [] => exact List.nodup_nil
    | [a] => simp
    | a :: b :: t => simp_all
  · exact nodup_dedupKeepFirst _ _

theorem sortStrings_sorted (l : List String) : List.Sorted (· ≤ ·) (sortStrings l) :=
  List.sorted_insertionSort _ l

theorem sortStrings_perm (l : List String) : List.Perm (sortStrings l) l :=
  List.perm_insertionSort _ l

theorem mem_sortStrings {x : String} {l : List String} : x ∈ sortStrings l ↔ x ∈ l :=
  (sortStrings_perm l).mem_iff

theorem nodup_sortStrings {l : List String} (h : l.Nodup) : (sortStrings l).Nodup :=
  ((sortStrings_perm l).nodup_iff).mpr h

/-- Two lists with the same elements have the same sorted deduplication:
the deterministic core of the formatter and of the finalize pass. -/
theorem canonical_eq_of_mem_iff (l₁ l₂ : List String) (h : ∀ x, x ∈ l₁ ↔ x ∈ l₂) :
    sortStrings (DeduplicateStrings l₁) = sortStrings (DeduplicateStrings l₂) := by
  refine List.eq_of_perm_of_sorted ?_ (sortStrings_sorted _) (sortStrings_sorted _)
  refine (List.perm_ext_iff_of_nodup (nodup_sortStrings (nodup_DeduplicateStrings _))
    (nodup_sortStrings (nodup_DeduplicateStrings _))).mpr ?_
  intro a
  rw [mem_sortStrings, mem_sortStrings, mem_DeduplicateStrings, mem_DeduplicateStrings]
  exact h a

theorem finalizeNames_props (l : List String) :
    List.Sorted (· ≤ ·) (finalizeNames l) ∧ (finalizeNames l).Nodup ∧
    "_" ∉ finalizeNames l ∧ ∀ n ∈ finalizeNames l, IsExported n = true := by
  unfold finalizeNames
  refine ⟨sortStrings_sorted _, ?_, ?_, ?_⟩
  · refine nodup_sortStrings ?_
    exact ((nodup_DeduplicateStrings l).filter _).filter _
  · intro hmem
    have hm := mem_sortStrings.mp hmem
    rw [removeUnexported] at hm
    have hx := List.mem_filter.mp hm
    rw [removeBlankIdentifier] at hx
    have hblank := List.mem_filter.mp hx.1
    simp at hblank
  · intro n hmem
    have hm := mem_sortStrings.mp hmem
    rw [removeUnexported] at hm
    have hx := List.mem_filter.mp hm
    simpa using hx.2

theorem head?_append_left {α : Type} (l₁ l₂ : List α) (h : l₁ ≠ []) :
    (l₁ ++ l₂).head? = l₁.head? := by
  cases l₁ with
  | nil => exact absurd rfl h
  | cons a t => rfl

theorem dropWhile_eq_self_of_head (p : Char → Bool) (l : List Char)
    (h : ∀ c, l.head? = some c → p c = false) : l.dropWhile p = l := by
  cases l with
  | nil => rfl
  | cons a t =>
      rw [List.dropWhile_cons, h a rfl]
      simp

/-- Trimming a trailing space returns the original string when it is nonempty,
starts with a non-whitespace character, and ends with one. -/
theorem trimSpace_append_space (X : String)
    (hhead : ∀ c, X.data.head? = some c → c.isWhitespace = false)
    (hlast : ∀ c, X.data.getLast? = some c → c.isWhitespace = false)
    (hne : X.data ≠ []) :
    trimSpace (X ++ " ") = X := by
  apply String.ext
  show (((X ++ " ").data.dropWhile Char.isWhitespace).reverse.dropWhile
      Char.isWhitespace).reverse = X.data
  rw [String.data_append]
  have hsp : (" " : String).data = [' '] := rfl
  rw [hsp]
  obtain ⟨c, t, hct⟩ : ∃ c t, X.data = c :: t := by
    cases hX : X.data with
    | nil => exact absurd hX hne
    | cons c t => exact ⟨c, t, rfl⟩
  have hc : c.isWhitespace = false := hhead c (by rw [hct]; rfl)
  rw [hct, List.cons_append, List.dropWhile_cons, hc]
  simp only [Bool.false_eq_true, if_false]
  simp only [List.reverse_cons, List.reverse_append, List.reverse_nil, List.nil_append,
    List.cons_append, List.dropWhile_cons]
  have hws : (' ').isWhitespace = true := by decide
  rw [hws]
  simp only [if_true]
  have hrev : t.reverse ++ [c] = (c :: t).reverse := (List.reverse_cons c t).symm
  rw [hrev, dropWhile_eq_self_of_head, List.reverse_reverse]
  intro d hd
  rw [List.head?_reverse] at hd
  exact hlast d (by rw [hct]; exact hd)

/-- Characters of a comma-join of clean names: nonempty and free of
whitespace (the comma itself is not whitespace). -/
theorem joinComma_clean : ∀ (l : List String), l ≠ [] →
    (∀ x ∈ l, x ≠ "" ∧ x.data.all (fun c => !c.isWhitespace)) →
    (joinComma l).data ≠ [] ∧ (joinComma l).data.all (fun c => !c.isWhitespace) := by
  intro l
  induction l with
  | nil => intro h; exact absurd rfl h
  | cons a t ih =>
    intro _ hcl
    obtain ⟨hane, haws⟩ := hcl a (List.mem_cons_self a t)
    have hadata : a.data ≠ [] := by
      intro hc
      exact hane (String.ext hc)
    cases t with
    | nil =>
      refine ⟨?_, ?_⟩
      · show (joinComma [a]).data ≠ []
        exact hadata
      · exact haws
    | cons b t2 =>
      obtain ⟨ihne, ihws⟩ := ih (by simp) (fun x hx => hcl x (List.mem_cons_of_mem _ hx))
      have hjc : joinComma (a :: b :: t2) = a ++ "," ++ joinComma (b :: t2) := rfl
      refine ⟨?_, ?_⟩
      · rw [hjc, String.data_append, String.data_append]
        simp
      · rw [hjc, String.data_append, String.data_append]
        rw [List.all_append, List.all_append]
        refine (Bool.and_eq_true _ _).mpr ⟨(Bool.and_eq_true _ _).mpr ⟨haws, by decide⟩, ihws⟩

/-! ## Claim theorems: the formatter (C9, C10) -/

/-- C9: the directive formatter is a pure function of the multiset of names:
it deduplicates and lexicographically sorts both name lists, joins each with
the fixed comma delimiter, and returns the same single-line directive for any
input ordering or repetitions; `format("example.org/pkg", ["TypeA","TypeA"],
["ConstB"])` yields the directive containing `example.org/pkg TypeA ConstB`,
and an empty type list renders the explicit empty-string placeholder `""`. -/
theorem c9_formatter_deterministic :
    (∀ (path : String) (t1 t2 v1 v2 : List String),
        (∀ x, x ∈ t1 ↔ x ∈ t2) → (∀ x, x ∈ v1 ↔ x ∈ v2) →
        FormatDepstubberComment path t1 v1 = FormatDepstubberComment path t2 v2) ∧
    FormatDepstubberComment "example.org/pkg" ["TypeA", "TypeA"] ["ConstB"] =
      "//go:generate depstubber -vendor example.org/pkg TypeA ConstB" ∧
    formatFirstField [] = "\x22\x22" := by
  refine ⟨?_, by decide, by decide⟩
  intro path t1 t2 v1 v2 ht hv
  have hfield : ∀ (l1 l2 : List String) (s : String), (∀ x, x ∈ l1 ↔ x ∈ l2) →
      (if l1.length > 0 then joinComma (sortStrings (DeduplicateStrings l1)) else s) =
      (if l2.length > 0 then joinComma (sortStrings (DeduplicateStrings l2)) else s) := by
    intro l1 l2 s h
    by_cases h1 : l1 = []
    · subst h1
      have h2 : l2 = [] := by
        cases h2 : l2 with
        | nil => rfl
        | cons a u =>
            exact absurd ((h a).mpr (h2 ▸ List.mem_cons_self a u)) (List.not_mem_nil a)
      subst h2; rfl
    · have h2 : l2 ≠ [] := by
        intro hc; subst hc
        cases h1c : l1 with
        | nil => exact h1 h1c
        | cons a u =>
            exact absurd ((h a).mp (h1c ▸ List.mem_cons_self a u)) (List.not_mem_nil a)
      rw [if_pos (List.length_pos.mpr h1), if_pos (List.length_pos.mpr h2),
        canonical_eq_of_mem_iff l1 l2 h]
  unfold FormatDepstubberComment formatFirstField formatSecondField
  rw [hfield t1 t2 _ ht, hfield v1 v2 _ hv]

theorem c9_formatter_deterministic_witness :
    FormatDepstubberComment "p" ["B", "A"] ["C"] =
      FormatDepstubberComment "p" ["A", "B", "A"] ["C"] :=
  c9_formatter_deterministic.1 "p" ["B", "A"] ["A", "B", "A"] ["C"] ["C"]
    (by intro x; simp only [List.mem_cons, List.not_mem_nil, or_false]; tauto)
    (fun _ => Iff.rfl)

/-- C10: in the formatter variant of `auto-detect.go`, an empty value-name
list (with a nonempty type-name list) is omitted entirely — the trailing
whitespace is trimmed and the line ends with the joined type names, one field
fewer — whereas the older variant renders an explicit `""` placeholder for the
empty value list, i.e. the same line with `" \"\""` appended. -/
theorem c10_empty_value_field :
    ∀ (path : String) (types : List String), types ≠ [] →
    (∀ n ∈ types, n ≠ "" ∧ n.data.all (fun c => !c.isWhitespace)) →
    FormatDepstubberComment path types [] =
      "//go:generate depstubber -vendor " ++ path ++ " " ++ formatFirstField types ∧
    FormatDepstubberCommentPlaceholder path types [] =
      "//go:generate depstubber -vendor " ++ path ++ " " ++ formatFirstField types
        ++ " \x22\x22" := by
  intro path types hne hclean
  have hff : formatFirstField types =
      joinComma (sortStrings (DeduplicateStrings types)) := by
    unfold formatFirstField
    rw [if_pos (List.length_pos.mpr hne)]
  have hsdne : sortStrings (DeduplicateStrings types) ≠ [] := by
    intro hc
    cases hty : types with
    | nil => exact hne hty
    | cons a u =>
        have : a ∈ sortStrings (DeduplicateStrings types) := by
          rw [mem_sortStrings, mem_DeduplicateStrings, hty]
          exact List.mem_cons_self a u
        rw [hc] at this
        exact List.not_mem_nil a this
  have hsdclean : ∀ x ∈ sortStrings (DeduplicateStrings types),
      x ≠ "" ∧ x.data.all (fun c => !c.isWhitespace) := by
    intro x hx
    exact hclean x (mem_DeduplicateStrings.mp (mem_sortStrings.mp hx))
  obtain ⟨hjne, hjws⟩ := joinComma_clean _ hsdne hsdclean
  have hXdata : ("//go:generate depstubber -vendor " ++ path ++ " " ++
        formatFirstField types).data =
      ("//go:generate depstubber -vendor " ++ path ++ " ").data ++
        (formatFirstField types).data := String.data_append _ _
  have hXne : ("//go:generate depstubber -vendor " ++ path ++ " " ++
      formatFirstField types).data ≠ [] := by
    rw [hXdata]
    intro hc
    rcases List.append_eq_nil.mp hc with ⟨h1, _⟩
    rw [String.data_append] at h1
    rcases List.append_eq_nil.mp h1 with ⟨h2, _⟩
    rw [String.data_append] at h2
    rcases List.append_eq_nil.mp h2 with ⟨h3, _⟩
    exact absurd h3 (by decide)
  have hXhead : ∀ c, ("//go:generate depstubber -vendor " ++ path ++ " " ++
      formatFirstField types).data.head? = some c → c.isWhitespace = false := by
    intro c hcm
    rw [hXdata, String.data_append, String.data_append] at hcm
    rw [List.append_assoc, List.append_assoc] at hcm
    rw [head?_append_left _ _ (by decide)] at hcm
    have hcq : c = '/' := by
      have h2 : ("//go:generate depstubber -vendor " : String).data.head? = some '/' := rfl
      rw [h2] at hcm
      exact (Option.some_inj.mp hcm).symm
    rw [hcq]
    decide
  have hXlast : ∀ c, ("//go:generate depstubber -vendor " ++ path ++ " " ++
      formatFirstField types).data.getLast? = some c → c.isWhitespace = false := by
    intro c hcm
    rw [hXdata, List.getLast?_append_of_ne_nil _ (by rw [hff]; exact hjne)] at hcm
    have hcmem : c ∈ (formatFirstField types).data := by
      obtain ⟨hnn, hgl⟩ := List.mem_getLast?_eq_getLast (by rw [hcm]; rfl)
      rw [hgl]
      exact List.getLast_mem hnn
    rw [hff] at hcmem
    have hac := List.all_eq_true.mp hjws c hcmem
    simpa using hac
  constructor
  · unfold FormatDepstubberComment
    have harg : "//go:generate depstubber -vendor " ++ path ++ " " ++
        formatFirstField types ++ " " ++ formatSecondField ([] : List String) =
        ("//go:generate depstubber -vendor " ++ path ++ " " ++
          formatFirstField types) ++ " " := by
      rw [show formatSecondField ([] : List String) = "" from rfl, String.append_empty]
    rw [harg]
    exact trimSpace_append_space _ hXhead hXlast hXne
  · unfold FormatDepstubberCommentPlaceholder
    rw [show formatSecondFieldPlaceholder ([] : List String) = "\x22\x22" from rfl]
    rw [show (" \x22\x22" : String) = " " ++ "\x22\x22" from rfl]
    rw [← String.append_assoc]

theorem c10_empty_value_field_witness :
    FormatDepstubberComment "example.org/pkg" ["TypeA"] [] =
      "//go:generate depstubber -vendor " ++ "example.org/pkg" ++ " " ++
        formatFirstField ["TypeA"] :=
  (c10_empty_value_field "example.org/pkg" ["TypeA"] (by decide)
    (by intro n hn; rcases List.mem_cons.mp hn with rfl | hn
        · exact ⟨by decide, by decide⟩
        · exact absurd hn (List.not_mem_nil n))).1

/-! ## Claim theorems: the usage-analysis engine (C3, C4, C5, C8) -/

/-- The Go type-checker invariant the spec appeals to: a well-typed program's
resolved uses never refer to an unexported symbol of a different package. -/
def WellTypedUses (entryPath : String) (uses : List UseObj) : Prop :=
  ∀ u ∈ uses, ∀ p, u.pkg = some p → p ≠ "" → p ≠ entryPath → IsExported u.name = true

theorem applyAction_eq_none_iff (st : DetectState) (a : UseAction) :
    applyAction st a = none ↔ a = .invariantPanicAction := by
  cases a <;> simp [applyAction]

theorem classifyUse_mk_none (entry : String) (oracle : String → Option String)
    (nm : String) (kd : ObjKind) :
    classifyUse entry oracle ⟨none, nm, kd⟩ = .skip := rfl

theorem classifyUse_mk_some (entry : String) (oracle : String → Option String)
    (p nm : String) (kd : ObjKind) :
    classifyUse entry oracle ⟨some p, nm, kd⟩ =
      (if p = "" then .skip
       else if IsStandardImportPath p then .skip
       else if p = entry then .skip
       else if !(IsExported nm) then .invariantPanicAction
       else if sameProjectCheck entry oracle p then .skip
       else
         match kd with
         | .typeName named =>
             match named with
             | some (npkg, nname) => .recordType npkg nname
             | none => .skip
         | .constObj => .recordValue p nm
         | .varObj isField => if isField then .skip else .recordValue p nm
         | .funcObj recv =>
             match recv with
             | some (rpkg, rname) => .recordValue rpkg rname
             | none => .recordValue p nm) := rfl

theorem classifyUse_ne_panic_of_exported (entry : String)
    (oracle : String → Option String) (u : UseObj)
    (h : ∀ p, u.pkg = some p → p ≠ "" → p ≠ entry → IsExported u.name = true) :
    classifyUse entry oracle u ≠ .invariantPanicAction := by
  obtain ⟨pk, nm, kd⟩ := u
  cases pk with
  | none => rw [classifyUse_mk_none]; simp
  | some p =>
    have hh : p ≠ "" → p ≠ entry → IsExported nm = true := fun h1 h3 => h p rfl h1 h3
    rw [classifyUse_mk_some]
    by_cases h1 : p = ""
    · simp [h1]
    · rw [if_neg h1]
      by_cases h2 : IsStandardImportPath p = true
      · rw [if_pos h2]; simp
      · rw [if_neg h2]
        by_cases h3 : p = entry
        · rw [if_pos h3]; simp
        · rw [if_neg h3]
          rw [hh h1 h3]
          simp only [Bool.not_true, Bool.false_eq_true, if_false]
          by_cases h4 : sameProjectCheck entry oracle p = true
          · rw [if_pos h4]; simp
          · rw [if_neg h4]
            cases kd with
            | typeName named =>
                cases named with
                | none => simp
                | some pr => obtain ⟨a, b⟩ := pr; simp
            | constObj => simp
            | varObj isField => cases isField <;> simp
            | funcObj recv =>
                cases recv with
                | none => simp
                | some pr => obtain ⟨a, b⟩ := pr; simp

theorem walkUses_cons (entry : String) (oracle : String → Option String)
    (u : UseObj) (us : List UseObj) (st : DetectState) :
    walkUses entry oracle (u :: us) st =
      match applyAction st (classifyUse entry oracle u) with
      | none => none
      | some st' => walkUses entry oracle us st' := rfl

/-- C3: a resolved use surviving the no-owning-package, standard-library,
same-package and same-project filters whose name is unexported makes the
engine raise the internal-invariant panic (never a user-facing error, never a
silent skip), and under the well-typedness precondition the panic branch is
unreachable: the walk always completes. -/
theorem c3_unexported_invariant :
    (∀ (entry : String) (oracle : String → Option String) (u : UseObj) (p : String),
        u.pkg = some p → p ≠ "" → IsStandardImportPath p = false → p ≠ entry →
        sameProjectCheck entry oracle p = false → IsExported u.name = false →
        classifyUse entry oracle u = .invariantPanicAction ∧
        ∀ st : DetectState, applyAction st (classifyUse entry oracle u) = none) ∧
    (∀ (entry : String) (oracle : String → Option String) (uses : List UseObj)
        (st : DetectState), WellTypedUses entry uses →
        (walkUses entry oracle uses st).isSome = true) := by
  constructor
  · intro entry oracle u p hp h1 h2 h3 _ h5
    obtain ⟨pk, nm, kd⟩ := u
    have hpk : pk = some p := hp
    subst hpk
    have h5' : IsExported nm = false := h5
    have hcl : classifyUse entry oracle ⟨some p, nm, kd⟩ = .invariantPanicAction := by
      rw [classifyUse_mk_some, if_neg h1,
        if_neg (by rw [h2]; exact Bool.false_ne_true), if_neg h3, h5']
      simp
    exact ⟨hcl, fun st => by rw [hcl]; rfl⟩
  · intro entry oracle uses
    induction uses with
    | nil => intro st _; rfl
    | cons u us ih =>
      intro st h
      have hne : classifyUse entry oracle u ≠ .invariantPanicAction :=
        classifyUse_ne_panic_of_exported entry oracle u
          (fun p hp h1 h3 => h u (List.mem_cons_self u us) p hp h1 h3)
      rw [walkUses_cons]
      cases hs : applyAction st (classifyUse entry oracle u) with
      | none => exact absurd ((applyAction_eq_none_iff st _).mp hs) hne
      | some st' =>
          exact ih st' (fun v hv => h v (List.mem_cons_of_mem _ hv))

theorem c3_unexported_invariant_witness :
    classifyUse "example.com/consumer" (fun _ => none)
      ⟨some "other.org/x", "foo", ObjKind.constObj⟩ = .invariantPanicAction :=
  (c3_unexported_invariant.1 "example.com/consumer" (fun _ => none)
    ⟨some "other.org/x", "foo", ObjKind.constObj⟩ "other.org/x" rfl (by decide)
    (by decide) (by decide) (by decide) (by decide)).1

/-- C4: whenever `autoDetect` succeeds, every per-package type-name list and
value-name list in the result is sorted lexicographically, duplicate-free,
free of the blank identifier, and contains only exported names. -/
theorem c4_indices_canonical :
    ∀ (oracle : String → Option String) (loadResult : Except String Loaded)
      (st : DetectState), autoDetect oracle loadResult = some (.ok st) →
    ∀ p, (List.Sorted (· ≤ ·) (st.typeNames p) ∧ (st.typeNames p).Nodup ∧
          "_" ∉ st.typeNames p ∧ ∀ n ∈ st.typeNames p, IsExported n = true) ∧
         (List.Sorted (· ≤ ·) (st.valueNames p) ∧ (st.valueNames p).Nodup ∧
          "_" ∉ st.valueNames p ∧ ∀ n ∈ st.valueNames p, IsExported n = true) := by
  intro oracle loadResult st h p
  unfold autoDetect at h
  cases hl : loadPackage loadResult with
  | error e => rw [hl] at h; simp at h
  | ok l =>
      rw [hl] at h
      dsimp only at h
      cases hw : walkUses l.entryPath oracle l.uses emptyDetectState with
      | none => rw [hw] at h; simp at h
      | some st0 =>
          rw [hw] at h
          simp only [Option.some_inj] at h
          have hfin : finalizeState st0 = st := by
            cases h with
            | refl => rfl
          rw [← hfin]
          exact ⟨finalizeNames_props (st0.typeNames p),
            finalizeNames_props (st0.valueNames p)⟩

def c4Oracle : String → Option String := fun _ => none

def c4Loaded : Loaded :=
  ⟨[], "example.com/consumer",
    [⟨some "dep.example.com/lib", "Foo", ObjKind.constObj⟩,
     ⟨some "dep.example.com/lib", "Bar", ObjKind.funcObj none⟩,
     ⟨some "dep.example.com/lib", "Foo", ObjKind.constObj⟩]⟩

def c4State : DetectState :=
  match autoDetect c4Oracle (.ok c4Loaded) with
  | some (.ok st) => st
  | _ => emptyDetectState

theorem c4_indices_canonical_witness :
    List.Sorted (· ≤ ·) (c4State.valueNames "dep.example.com/lib") ∧
    (c4State.valueNames "dep.example.com/lib").Nodup :=
  ⟨((c4_indices_canonical c4Oracle (.ok c4Loaded) c4State rfl
      "dep.example.com/lib").2).1,
   ((c4_indices_canonical c4Oracle (.ok c4Loaded) c4State rfl
      "dep.example.com/lib").2).2.1⟩

def c5Oracle : String → Option String := fun _ => none

/-- A consumer using `aliaspkg.Foo`, where `Foo` is a type alias declared in
`example.com/aliaspkg` whose right-hand side is the named type
`bytes.Buffer`: the use's own package survives every filter, but the
recording step keys the entry by the named type's declaring package. -/
def c5Loaded : Loaded :=
  ⟨[], "example.com/consumer",
    [⟨some "example.com/aliaspkg", "Foo", ObjKind.typeName (some ("bytes", "Buffer"))⟩]⟩

def c5State : DetectState :=
  match autoDetect c5Oracle (.ok c5Loaded) with
  | some (.ok st) => st
  | _ => emptyDetectState

/-- C5 counterexample: the claim says a standard-library package never
appears in either returned index, but an exported type-alias use whose
aliased named type lives in the standard library is recorded under the
standard-library package's path: here detection succeeds and the type index
maps the std-lib path `bytes` to `["Buffer"]`. -/
theorem c5_std_key_counterexample :
    autoDetect c5Oracle (.ok c5Loaded) = some (.ok c5State) ∧
    IsStandardImportPath "bytes" = true ∧
    c5State.typeNames "bytes" = ["Buffer"] :=
  ⟨rfl, by decide, by decide⟩

/-- C5 (amended): a use whose *owning* package is the standard library, the
entry package itself, or a same-project package is always skipped — deleting
all skipped uses from the consumer leaves the walk's result unchanged, no
matter how often they occur.  (The recorded *key*, however, is the declaring
package of the use's named type, which for an alias can itself be a
standard-library or same-module path — see the counterexample.) -/
theorem c5_skipped_never_recorded :
    (∀ (entry : String) (oracle : String → Option String) (u : UseObj) (p : String),
        u.pkg = some p → IsStandardImportPath p = true →
        classifyUse entry oracle u = .skip) ∧
    (∀ (entry : String) (oracle : String → Option String) (u : UseObj),
        u.pkg = some entry → classifyUse entry oracle u = .skip) ∧
    (∀ (entry : String) (oracle : String → Option String) (u : UseObj) (p : String),
        u.pkg = some p → IsExported u.name = true →
        sameProjectCheck entry oracle p = true →
        classifyUse entry oracle u = .skip) ∧
    (∀ (entry : String) (oracle : String → Option String) (uses : List UseObj)
        (st : DetectState),
        walkUses entry oracle uses st =
          walkUses entry oracle
            (uses.filter (fun u => decide (classifyUse entry oracle u ≠ .skip))) st) := by
  refine ⟨?_, ?_, ?_, ?_⟩
  · intro entry oracle u p hp hstd
    obtain ⟨pk, nm, kd⟩ := u
    have hpk : pk = some p := hp
    subst hpk
    rw [classifyUse_mk_some]
    by_cases h1 : p = ""
    · rw [if_pos h1]
    · rw [if_neg h1, if_pos hstd]
  · intro entry oracle u hp
    obtain ⟨pk, nm, kd⟩ := u
    have hpk : pk = some entry := hp
    subst hpk
    rw [classifyUse_mk_some]
    by_cases h1 : entry = ""
    · rw [if_pos h1]
    · rw [if_neg h1]
      by_cases h2 : IsStandardImportPath entry = true
      · rw [if_pos h2]
      · rw [if_neg h2, if_pos rfl]
  · intro entry oracle u p hp hex hsame
    obtain ⟨pk, nm, kd⟩ := u
    have hpk : pk = some p := hp
    subst hpk
    have hex' : IsExported nm = true := hex
    rw [classifyUse_mk_some]
    by_cases h1 : p = ""
    · rw [if_pos h1]
    · rw [if_neg h1]
      by_cases h2 : IsStandardImportPath p = true
      · rw [if_pos h2]
      · rw [if_neg h2]
        by_cases h3 : p = entry
        · rw [if_pos h3]
        · rw [if_neg h3, hex']
          simp only [Bool.not_true, Bool.false_eq_true, if_false]
          rw [if_pos hsame]
  · intro entry oracle uses
    induction uses with
    | nil => intro st; rfl
    | cons u us ih =>
      intro st
      rw [walkUses_cons]
      by_cases hcl : classifyUse entry oracle u = .skip
      · rw [hcl]
        have hfil : (u :: us).filter
            (fun v => decide (classifyUse entry oracle v ≠ .skip)) =
            us.filter (fun v => decide (classifyUse entry oracle v ≠ .skip)) := by
          rw [List.filter_cons]
          simp [hcl]
        rw [hfil]
        show walkUses entry oracle us st = _
        exact ih st
      · have hfil : (u :: us).filter
            (fun v => decide (classifyUse entry oracle v ≠ .skip)) =
            u :: us.filter (fun v => decide (classifyUse entry oracle v ≠ .skip)) := by
          rw [List.filter_cons]
          simp [hcl]
        rw [hfil, walkUses_cons]
        cases applyAction st (classifyUse entry oracle u) with
        | none => rfl
        | some st' => exact ih st'

theorem c5_skipped_never_recorded_witness :
    classifyUse "example.com/consumer" (fun _ => none)
      ⟨some "fmt", "Println", ObjKind.funcObj none⟩ = .skip :=
  c5_skipped_never_recorded.1 "example.com/consumer" (fun _ => none)
    ⟨some "fmt", "Println", ObjKind.funcObj none⟩ "fmt" rfl (by decide)

theorem concatAll_splits {α : Type} (f : α → String) :
    ∀ (l : List α) (d : α), d ∈ l →
    ∃ pre post, concatAll (l.map f) = pre ++ (f d ++ post) := by
  intro l
  induction l with
  | nil => intro d h; cases h
  | cons a t ih =>
    intro d h
    rcases List.mem_cons.mp h with rfl | h
    · refine ⟨"", concatAll (t.map f), ?_⟩
      show f d ++ concatAll (t.map f) = "" ++ (f d ++ concatAll (t.map f))
      rw [String.empty_append]
    · obtain ⟨pre, post, hp⟩ := ih d h
      refine ⟨f a ++ pre, post, ?_⟩
      show f a ++ concatAll (t.map f) = (f a ++ pre) ++ (f d ++ post)
      rw [hp, String.append_assoc]

/-- The rendered aggregate message mentions every diagnostic: for each one
there is a split of the message around its text. -/
theorem combinedErrorsMessage_splits (diags : List String) (d : String)
    (h : d ∈ diags) :
    ∃ pre post, combinedErrorsMessage (diags.map some) = pre ++ (d ++ post) := by
  obtain ⟨pre, post, hp⟩ := concatAll_splits (fun m => "\n - " ++ m) diags d h
  refine ⟨("The following errors occurred:" ++ pre) ++ "\n - ", post, ?_⟩
  unfold combinedErrorsMessage
  have hmaps2 : (diags.map some).map (fun e : Option String =>
      match e with
      | some m => "\n - " ++ m
      | none => "") = diags.map (fun m => "\n - " ++ m) := by
    rw [List.map_map]
    rfl
  rw [hmaps2, hp]
  show "The following errors occurred:" ++ (pre ++ (("\n - " ++ d) ++ post)) = _
  rw [String.append_assoc "\n - " d post]
  rw [← String.append_assoc "The following errors occurred:" pre _]
  rw [← String.append_assoc _ "\n - " (d ++ post)]

theorem combineErrors_diags (diags : List String) (h : diags ≠ []) :
    CombineErrors (diags.map some) = some (diags.map some) := by
  unfold CombineErrors
  rw [if_neg]
  intro hc
  rcases (Bool.or_eq_true _ _).mp (by exact_mod_cast hc) with h1 | h2
  · have hlen : diags.length = 0 := by
      have := of_decide_eq_true h1
      simpa using this
    exact h (List.length_eq_zero.mp hlen)
  · cases diags with
    | nil => exact h rfl
    | cons a t =>
        unfold allNilErrors at h2
        simp at h2

/-- C8: any nonempty set of collected diagnostics makes detection fail with a
single aggregate error whose message lists every diagnostic, and detection
returns its indices only when no diagnostics were collected. -/
theorem c8_diagnostics_aggregated :
    (∀ (oracle : String → Option String) (l : Loaded), l.diags ≠ [] →
        autoDetect oracle (.ok l) = some (.error
          ("error while loading package: " ++ ("error while packages.Load: " ++
            combinedErrorsMessage (l.diags.map some)))) ∧
        ∀ d ∈ l.diags, ∃ pre post,
          "error while loading package: " ++ ("error while packages.Load: " ++
            combinedErrorsMessage (l.diags.map some)) = pre ++ (d ++ post)) ∧
    (∀ (oracle : String → Option String) (loadResult : Except String Loaded)
        (st : DetectState), autoDetect oracle loadResult = some (.ok st) →
        ∃ l, loadResult = .ok l ∧ l.diags = []) := by
  constructor
  · intro oracle l hne
    have hlen : (l.diags.map some).length > 0 := by
      rcases hd : l.diags with _ | ⟨a, t⟩
      · exact absurd hd hne
      · simp
    have hload : loadPackage (.ok l) = .error
        ("error while packages.Load: " ++ combinedErrorsMessage (l.diags.map some)) := by
      unfold loadPackage
      dsimp only
      rw [if_pos hlen, combineErrors_diags l.diags hne]
      rfl
    constructor
    · unfold autoDetect
      rw [hload]
    · intro d hd
      obtain ⟨pre, post, hp⟩ := combinedErrorsMessage_splits l.diags d hd
      refine ⟨"error while loading package: " ++ ("error while packages.Load: " ++ pre),
        post, ?_⟩
      rw [hp, String.append_assoc, String.append_assoc]
  · intro oracle loadResult st h
    unfold autoDetect at h
    cases hl : loadPackage loadResult with
    | error e => rw [hl] at h; simp at h
    | ok l =>
        refine ⟨l, ?_, ?_⟩
        · cases loadResult with
          | error e =>
              unfold loadPackage at hl
              simp at hl
          | ok l2 =>
              unfold loadPackage at hl
              dsimp only at hl
              by_cases hz : (l2.diags.map some).length > 0
              · rw [if_pos hz] at hl; simp at hl
              · rw [if_neg hz] at hl
                simp only [Except.ok.injEq] at hl
                rw [hl]
        · cases loadResult with
          | error e =>
              unfold loadPackage at hl
              simp at hl
          | ok l2 =>
              unfold loadPackage at hl
              dsimp only at hl
              by_cases hz : (l2.diags.map some).length > 0
              · rw [if_pos hz] at hl; simp at hl
              · rw [if_neg hz] at hl
                simp only [Except.ok.injEq] at hl
                subst hl
                simpa using hz

def c8Loaded : Loaded := ⟨["diag one", "diag two"], "example.com/consumer", []⟩

theorem c8_diagnostics_aggregated_witness :
    autoDetect (fun _ => none) (.ok c8Loaded) = some (.error
      ("error while loading package: " ++ ("error while packages.Load: " ++
        combinedErrorsMessage (c8Loaded.diags.map some)))) :=
  ((c8_diagnostics_aggregated.1 (fun _ => none) c8Loaded (by decide))).1

/-! ## Claim theorems: the reflection harness (C1, C2, C6, C7) -/

/-- The locations attempted, in order, read off the event trace. -/
def attemptsOf (evs : List Event) : List Loc :=
  evs.filterMap (fun ev =>
    match ev with
    | .attemptStart l => some l
    | _ => none)

theorem attemptsOf_append (a b : List Event) :
    attemptsOf (a ++ b) = attemptsOf a ++ attemptsOf b :=
  List.filterMap_append a b _

theorem attemptsOf_attemptStart (l : Loc) (evs : List Event) :
    attemptsOf (Event.attemptStart l :: evs) = l :: attemptsOf evs := rfl

theorem attemptsOf_createDir (l : Loc) (evs : List Event) :
    attemptsOf (Event.createDir l :: evs) = attemptsOf evs := rfl

theorem runInDirBody_events (loc : Loc) (e : RunEnv) :
    attemptsOf (runInDirBody loc e).2 = [] ∧
    (∀ l, Event.createDir l ∉ (runInDirBody loc e).2) ∧
    (∀ l, Event.removeDir l ∉ (runInDirBody loc e).2) := by
  obtain ⟨td, wf, gw, mr, cp, bd, rn⟩ := e
  cases wf <;> cases gw <;> cases mr <;> cases cp <;> cases bd <;> cases rn <;>
    simp [runInDirBody, attemptsOf]

theorem runInDir_shape (loc : Loc) (e : RunEnv) :
    attemptsOf (runInDir loc e).2 = [loc] ∧
    (∀ (r : Except String Nat) (evs : List Event), runInDir loc e = (some r, evs) →
      ∀ l, evs.count (Event.createDir l) = evs.count (Event.removeDir l) ∧
           evs.count (Event.createDir l) ≤ (if l = loc then 1 else 0)) := by
  obtain ⟨hba, hbc, hbr⟩ := runInDirBody_events loc e
  unfold runInDir
  cases htd : e.tmpDirResult with
  | error err =>
      refine ⟨by simp [attemptsOf], ?_⟩
      intro r evs h l
      have hevs : evs = [Event.attemptStart loc] := (Prod.mk.injEq _ _ _ _).mp h |>.2.symm
      subst hevs
      constructor
      · simp [List.count_cons]
      · simp [List.count_cons]
  | ok u =>
      cases hb : runInDirBody loc e with
      | mk r0 evs0 =>
        rw [hb] at hba hbc hbr
        cases r0 with
        | none =>
            refine ⟨?_, ?_⟩
            · show attemptsOf (Event.attemptStart loc :: Event.createDir loc :: evs0) = [loc]
              rw [attemptsOf_attemptStart, attemptsOf_createDir,
                show attemptsOf evs0 = ([] : List Loc) from hba]
            · intro r evs h l
              exact absurd ((Prod.mk.injEq _ _ _ _).mp h).1 (by simp)
        | some r1 =>
            refine ⟨?_, ?_⟩
            · show attemptsOf (Event.attemptStart loc :: Event.createDir loc ::
                  (evs0 ++ [Event.removeDir loc])) = [loc]
              rw [attemptsOf_attemptStart, attemptsOf_createDir, attemptsOf_append,
                show attemptsOf evs0 = ([] : List Loc) from hba]
              rfl
            · intro r evs h l
              have hevs : evs = Event.attemptStart loc :: Event.createDir loc ::
                  (evs0 ++ [Event.removeDir loc]) :=
                ((Prod.mk.injEq _ _ _ _).mp h).2.symm
              subst hevs
              have hc0 : evs0.count (Event.createDir l) = 0 :=
                List.count_eq_zero.mpr (hbc l)
              have hr0 : evs0.count (Event.removeDir l) = 0 :=
                List.count_eq_zero.mpr (hbr l)
              by_cases hl : l = loc
              · subst hl
                constructor
                · simp [List.count_cons, List.count_append, hc0, hr0]
                · simp [List.count_cons, List.count_append, hc0, hr0]
              · constructor
                · simp [List.count_cons, List.count_append, hc0, hr0, hl]
                · simp [List.count_cons, List.count_append, hc0, hr0, hl]

/-- Under valid names and default flags, `reflectMode` is exactly the
three-location cascade. -/
theorem reflectMode_eq_cascade (types values : List String) (env : ReflectEnv)
    (ht : types.all exportedId = true) (hv : values.all exportedId = true)
    (hx : env.execOnly = none) (hp : env.progOnly = false)
    (hw : env.writeProgramResult = .ok ()) (hg : env.getwdOk = true) :
    reflectMode types values env = reflectCascade env := by
  have hfind1 : types.find? (fun t => !exportedId t) = none := by
    apply List.find?_eq_none.2
    intro x hxm
    have hxe := List.all_eq_true.mp ht x hxm
    simp [hxe]
  have hfind2 : values.find? (fun v => !exportedId v) = none := by
    apply List.find?_eq_none.2
    intro x hxm
    have hxe := List.all_eq_true.mp hv x hxm
    simp [hxe]
  simp [reflectMode, hfind1, hfind2, hx, hp, hw, hg]

/-- An all-success environment for a single attempt, with a module root. -/
def allOkRunEnv : RunEnv :=
  ⟨.ok (), .ok (), true, some "/module/root", true, .ok (), .ok 0⟩

/-- Default flags, all three locations succeed. -/
def allOkReflectEnv : ReflectEnv :=
  ⟨none, false, .ok (), true, true, allOkRunEnv, allOkRunEnv, allOkRunEnv⟩

/-- C1 (code bug): the source checks names with an *unanchored*
`regexp.MatchString`, so `exportedId` accepts any name containing an
upper-case-led run: `lowerCase` and `Foo..Bar` — which the spec's grammar
rejects and the claim requires to be refused — are accepted, and `extract`
proceeds to synthesize and build a probe program instead of rejecting.  Only
the empty string is actually refused. -/
theorem c1_exportedId_unanchored_bug :
    exportedId "lowerCase" = true ∧
    exportedId "Foo..Bar" = true ∧
    exportedId "" = false ∧
    exportGrammarSpec "lowerCase" = false ∧
    exportGrammarSpec "Foo..Bar" = false ∧
    exportGrammarSpec "Foo" = true ∧ exportedId "Foo" = true ∧
    (reflectMode ["lowerCase"] [] allOkReflectEnv).1 = some (.ok 0) ∧
    Event.buildRun Loc.cwd ∈ (reflectMode ["lowerCase"] [] allOkReflectEnv).2 :=
  ⟨by decide, by decide, by decide, by decide, by decide, by decide, by decide,
   rfl, by decide⟩

/-- C2: the cascade tries the caller's working directory, then (when the
package directory resolves) the package's own directory, then the OS temp
directory, in that order and only in those orders; the first location whose
build-and-run succeeds determines the result, failures at the first two
locations are swallowed, and any error returned to the caller is exactly the
temp-directory attempt's error. -/
theorem c2_cascade_protocol :
    ∀ (types values : List String) (env : ReflectEnv),
    types.all exportedId = true → values.all exportedId = true →
    env.execOnly = none → env.progOnly = false →
    env.writeProgramResult = .ok () → env.getwdOk = true →
    (attemptsOf (reflectMode types values env).2 = [Loc.cwd] ∨
     attemptsOf (reflectMode types values env).2 = [Loc.cwd, Loc.pkgDir] ∨
     attemptsOf (reflectMode types values env).2 = [Loc.cwd, Loc.tmp] ∨
     attemptsOf (reflectMode types values env).2 = [Loc.cwd, Loc.pkgDir, Loc.tmp]) ∧
    (∀ p : Nat, (runInDir .cwd env.envCwd).1 = some (.ok p) →
        (reflectMode types values env).1 = some (.ok p)) ∧
    (∀ (e1 : String) (p : Nat), (runInDir .cwd env.envCwd).1 = some (.error e1) →
        env.importDirFound = true →
        (runInDir .pkgDir env.envPkgDir).1 = some (.ok p) →
        (reflectMode types values env).1 = some (.ok p)) ∧
    (∀ e : String, (reflectMode types values env).1 = some (.error e) →
        (runInDir .tmp env.envTmp).1 = some (.error e)) := by
  intro types values env ht hv hx hp hw hg
  rw [reflectMode_eq_cascade types values env ht hv hx hp hw hg]
  have hAa := (runInDir_shape .cwd env.envCwd).1
  have hBa := (runInDir_shape .pkgDir env.envPkgDir).1
  have hCa := (runInDir_shape .tmp env.envTmp).1
  unfold reflectCascade
  cases hA : runInDir .cwd env.envCwd with
  | mk rA evsA =>
    rw [hA] at hAa
    dsimp only at hAa
    cases rA with
    | none =>
        dsimp only
        refine ⟨Or.inl hAa, ?_, ?_, ?_⟩
        · intro p hcontra; exact hcontra
        · intro e1 p hcontra _ _; simp at hcontra
        · intro e hcontra; simp at hcontra
    | some r =>
      cases r with
      | ok p0 =>
          dsimp only
          refine ⟨Or.inl hAa, ?_, ?_, ?_⟩
          · intro p hok; exact hok
          · intro e1 p hcontra _ _; simp at hcontra
          · intro e hcontra; simp at hcontra
      | error e0 =>
          dsimp only
          cases hImp : env.importDirFound with
          | true =>
            rw [if_pos rfl]
            cases hB : runInDir .pkgDir env.envPkgDir with
            | mk rB evsB =>
              rw [hB] at hBa
              dsimp only at hBa
              cases rB with
              | none =>
                  dsimp only
                  refine ⟨?_, ?_, ?_, ?_⟩
                  · rw [attemptsOf_append, hAa, hBa]
                    exact Or.inr (Or.inl rfl)
                  · intro p hok; simp at hok
                  · intro e1 p _ _ hok; simp at hok
                  · intro e hcontra; simp at hcontra
              | some rB1 =>
                cases rB1 with
                | ok pB =>
                    dsimp only
                    refine ⟨?_, ?_, ?_, ?_⟩
                    · rw [attemptsOf_append, hAa, hBa]
                      exact Or.inr (Or.inl rfl)
                    · intro p hok; simp at hok
                    · intro e1 p _ _ hok; exact hok
                    · intro e hcontra; simp at hcontra
                | error eB =>
                    dsimp only
                    cases hC : runInDir .tmp env.envTmp with
                    | mk rC evsC =>
                      rw [hC] at hCa
                      dsimp only at hCa
                      dsimp only
                      refine ⟨?_, ?_, ?_, ?_⟩
                      · rw [attemptsOf_append, attemptsOf_append, hAa, hBa, hCa]
                        exact Or.inr (Or.inr (Or.inr rfl))
                      · intro p hok; simp at hok
                      · intro e1 p _ _ hok; simp at hok
                      · intro e hres; exact hres
          | false =>
            rw [if_neg (by simp)]
            cases hC : runInDir .tmp env.envTmp with
            | mk rC evsC =>
              rw [hC] at hCa
              dsimp only at hCa
              dsimp only
              refine ⟨?_, ?_, ?_, ?_⟩
              · rw [attemptsOf_append, hAa, hCa]
                exact Or.inr (Or.inr (Or.inl rfl))
              · intro p hok; simp at hok
              · intro e1 p _ hcontra _; simp at hcontra
              · intro e hres; exact hres

def c2Env : ReflectEnv :=
  ⟨none, false, .ok (), true, false,
   ⟨.ok (), .ok (), true, some "/module/root", true, .error "cwd build failed", .ok 0⟩,
   allOkRunEnv,
   ⟨.ok (), .ok (), true, some "/module/root", true, .error "tmp build failed", .ok 0⟩⟩

theorem c2_cascade_protocol_witness :
    (runInDir Loc.tmp c2Env.envTmp).1 = some (.error "tmp build failed") :=
  (c2_cascade_protocol [] [] c2Env rfl rfl rfl rfl rfl rfl).2.2.2
    "tmp build failed" rfl

def c6Env : ReflectEnv :=
  ⟨none, false, .ok (), true, false,
   ⟨.ok (), .ok (), true, some "/module/root", true, .error "cwd build failed", .ok 0⟩,
   allOkRunEnv,
   allOkRunEnv⟩

/-- C6 counterexample: the claim says the third (OS temp directory) location
is manifest-less, but `runInDir` copies the enclosing module's `go.mod`
(found from the caller's working directory) into the sandbox at *every*
location: here the first location fails to build, the package directory does
not resolve, and the successful temp-directory attempt still receives the
manifest copy. -/
theorem c6_tmp_manifest_counterexample :
    (reflectMode [] [] c6Env).1 = some (.ok 0) ∧
    Event.copyGoMod Loc.tmp ∈ (reflectMode [] [] c6Env).2 :=
  ⟨rfl, by decide⟩

/-- C6 (amended): at every sandbox location — the working directory, the
package directory, and equally the OS temp directory — `runInDir` copies the
enclosing module's manifest into the sandbox whenever the caller's working
directory has a module root, and omits it exactly when no module root is
found.  The copy source is the caller's module root, not the location. -/
theorem c6_manifest_copied_everywhere :
    ∀ (loc : Loc) (e : RunEnv), e.tmpDirResult = .ok () → e.writeFileResult = .ok () →
    e.getwdOk = true →
    ((∃ root, e.modRoot = some root) → e.copyOk = true →
        Event.copyGoMod loc ∈ (runInDir loc e).2) ∧
    (e.modRoot = none → Event.copyGoMod loc ∉ (runInDir loc e).2) := by
  intro loc e htd hwf hgw
  obtain ⟨td, wf, gw, mr, cp, bd, rn⟩ := e
  have htd' : td = .ok () := htd
  have hwf' : wf = .ok () := hwf
  have hgw' : gw = true := hgw
  subst htd' hwf' hgw'
  constructor
  · rintro ⟨root, hmr⟩ hcp
    have hmr' : mr = some root := hmr
    have hcp' : cp = true := hcp
    subst hmr' hcp'
    cases bd <;> cases rn <;> simp [runInDir, runInDirBody]
  · intro hmr
    have hmr' : mr = none := hmr
    subst hmr'
    cases bd <;> cases rn <;> simp [runInDir, runInDirBody]

theorem c6_manifest_copied_everywhere_witness :
    Event.copyGoMod Loc.tmp ∈ (runInDir Loc.tmp allOkRunEnv).2 :=
  (c6_manifest_copied_everywhere Loc.tmp allOkRunEnv rfl rfl rfl).1
    ⟨"/module/root", rfl⟩ rfl

/-- C7: whenever `reflectMode` returns (normally, with any result), every
sandbox directory that was created during the cascade was also removed: per
location the create and remove event counts agree and are at most one.
(`log.Fatalf` aborts, on which Go skips deferred cleanup, do not return.) -/
theorem c7_sandbox_removed :
    ∀ (types values : List String) (env : ReflectEnv) (r : Except String Nat)
      (evs : List Event), reflectMode types values env = (some r, evs) →
    ∀ l, evs.count (Event.createDir l) = evs.count (Event.removeDir l) ∧
         evs.count (Event.createDir l) ≤ 1 := by
  intro types values env r evs h l
  unfold reflectMode at h
  cases hf1 : types.find? (fun t => !exportedId t) with
  | some t =>
      rw [hf1] at h
      dsimp only at h
      obtain ⟨_, hevs⟩ := Prod.mk.injEq _ _ _ _ ▸ h
      cases hevs
      simp
  | none =>
    rw [hf1] at h
    dsimp only at h
    cases hf2 : values.find? (fun v => !exportedId v) with
    | some v =>
        rw [hf2] at h
        dsimp only at h
        obtain ⟨_, hevs⟩ := Prod.mk.injEq _ _ _ _ ▸ h
        cases hevs
        simp
    | none =>
      rw [hf2] at h
      dsimp only at h
      cases hx : env.execOnly with
      | some r0 =>
          rw [hx] at h
          dsimp only at h
          obtain ⟨_, hevs⟩ := Prod.mk.injEq _ _ _ _ ▸ h
          cases hevs
          simp
      | none =>
        rw [hx] at h
        dsimp only at h
        cases hwp : env.writeProgramResult with
        | error e0 =>
            rw [hwp] at h
            dsimp only at h
            obtain ⟨_, hevs⟩ := Prod.mk.injEq _ _ _ _ ▸ h
            cases hevs
            simp
        | ok u =>
          rw [hwp] at h
          dsimp only at h
          cases hpo : env.progOnly with
          | true =>
              rw [hpo] at h
              simp at h
          | false =>
            rw [hpo, if_neg (show ¬(false = true) by simp)] at h
            cases hgw : env.getwdOk with
            | false =>
                rw [hgw] at h
                simp at h
            | true =>
              rw [hgw, if_neg (show ¬((!true) = true) by simp)] at h
              -- now h : reflectCascade env = (some r, evs)
              have hcwd := (runInDir_shape .cwd env.envCwd).2
              have hpkg := (runInDir_shape .pkgDir env.envPkgDir).2
              have htmp := (runInDir_shape .tmp env.envTmp).2
              unfold reflectCascade at h
              cases hA : runInDir .cwd env.envCwd with
              | mk rA evsA =>
                rw [hA] at h
                cases rA with
                | none => simp at h
                | some rA1 =>
                  cases rA1 with
                  | ok p0 =>
                      dsimp only at h
                      obtain ⟨hr, hevs⟩ := Prod.mk.injEq _ _ _ _ ▸ h
                      subst hevs
                      obtain ⟨hceq, hcle⟩ := hcwd _ _ hA l
                      refine ⟨hceq, le_trans hcle ?_⟩
                      split <;> omega
                  | error e0 =>
                    dsimp only at h
                    cases hImp : env.importDirFound with
                    | true =>
                      rw [hImp, if_pos rfl] at h
                      cases hB : runInDir .pkgDir env.envPkgDir with
                      | mk rB evsB =>
                        rw [hB] at h
                        cases rB with
                        | none => simp at h
                        | some rB1 =>
                          cases rB1 with
                          | ok pB =>
                              dsimp only at h
                              obtain ⟨hr, hevs⟩ := Prod.mk.injEq _ _ _ _ ▸ h
                              subst hevs
                              obtain ⟨hceqA, hcleA⟩ := hcwd _ _ hA l
                              obtain ⟨hceqB, hcleB⟩ := hpkg _ _ hB l
                              rw [List.count_append, List.count_append,
                                hceqA, hceqB]
                              refine ⟨rfl, ?_⟩
                              rw [← hceqA, ← hceqB]
                              have := add_le_add hcleA hcleB
                              refine le_trans this ?_
                              cases l <;> simp
                          | error eB =>
                            dsimp only at h
                            cases hC : runInDir .tmp env.envTmp with
                            | mk rC evsC =>
                              rw [hC] at h
                              dsimp only at h
                              obtain ⟨hr, hevs⟩ := Prod.mk.injEq _ _ _ _ ▸ h
                              subst hevs
                              have hC' : runInDir Loc.tmp env.envTmp = (some r, evsC) := by
                                rw [hC, hr]
                              obtain ⟨hceqA, hcleA⟩ := hcwd _ _ hA l
                              obtain ⟨hceqB, hcleB⟩ := hpkg _ _ hB l
                              obtain ⟨hceqC, hcleC⟩ := htmp _ _ hC' l
                              rw [List.count_append, List.count_append,
                                List.count_append, List.count_append,
                                hceqA, hceqB, hceqC]
                              refine ⟨rfl, ?_⟩
                              rw [← hceqA, ← hceqB, ← hceqC]
                              have h12 := add_le_add (add_le_add hcleA hcleB) hcleC
                              refine le_trans h12 ?_
                              cases l <;> simp
                    | false =>
                      rw [hImp, if_neg (by simp)] at h
                      cases hC : runInDir .tmp env.envTmp with
                      | mk rC evsC =>
                        rw [hC] at h
                        dsimp only at h
                        obtain ⟨hr, hevs⟩ := Prod.mk.injEq _ _ _ _ ▸ h
                        subst hevs
                        have hC' : runInDir Loc.tmp env.envTmp = (some r, evsC) := by
                          rw [hC, hr]
                        obtain ⟨hceqA, hcleA⟩ := hcwd _ _ hA l
                        obtain ⟨hceqC, hcleC⟩ := htmp _ _ hC' l
                        rw [List.count_append, List.count_append, hceqA, hceqC]
                        refine ⟨rfl, ?_⟩
                        rw [← hceqA, ← hceqC]
                        have h12 := add_le_add hcleA hcleC
                        refine le_trans h12 ?_
                        cases l <;> simp

theorem c7_sandbox_removed_witness :
    ((reflectMode [] [] c2Env).2.count (Event.createDir Loc.cwd) =
      (reflectMode [] [] c2Env).2.count (Event.removeDir Loc.cwd)) ∧
    (reflectMode [] [] c2Env).2.count (Event.createDir Loc.cwd) ≤ 1 :=
  c7_sandbox_removed [] [] c2Env (.error "tmp build failed")
    (reflectMode [] [] c2Env).2 rfl Loc.cwd

end Depstubber
